import Mathlib

/-!
Shallow embedding of the matching module (`matcher.rs`) of the glaciers
repository: associating Ethereum logs and traces with ABI item signatures.

DataFrames are modeled as lists of typed records.  The Polars operations used
by the source are modeled by the corresponding list operations:
left join (row order of the left frame preserved, one output row per matching
right row, a single all-null-extension row when no right row matches; null
join keys never match, which is Polars' default `join_nulls = false`),
`filter`, `group_by` + `agg([all().first(), len()])` (one output row per
group, carrying the group key, the first member row's remaining columns and
the member-row count; groups in first-occurrence order, members in frame
order), `sort` (modeled as a stable sort; the source's `SortOptions` sets
`descending` and `nulls_last`, and the sorted column is a non-null count, so
`nulls_last` is inert), and `vstack` (list append).

The column-name aliases supplied by the configuration collaborator
(`get_config()...topic0 / address / selector / action_to`) are the identity
in this model: records use the physical field names directly.
-/

/-- A log record: `topic0` (32-byte event-signature hash) and the contract
`address` are always present; `topic1..topic3` are optional indexed-argument
slots. -/
structure LogRow where
  topic0 : Nat
  topic1 : Option Nat
  topic2 : Option Nat
  topic3 : Option Nat
  address : Nat
deriving DecidableEq

/-- A trace record: 4-byte function `selector` and target contract address
`action_to`. -/
structure TraceRow where
  selector : Nat
  action_to : Nat
deriving DecidableEq

/-- An ABI catalog entry: `hash` (topic0 for events, selector for functions),
the declaring `address`, and the signature columns.  `full_signature`,
`name`, `anonymous` and `num_indexed_args` are nullable columns. -/
structure AbiRow where
  hash : Nat
  address : Nat
  full_signature : Option String
  name : Option String
  anonymous : Option Bool
  num_indexed_args : Option Nat
deriving DecidableEq

/-- Output row of the log matchers: the log columns, the derived
`num_indexed_args` column, and the catalog columns appended by the join
(null when no catalog row matched or when the matched catalog cell is null;
the right-side join keys `hash`, `address`, `num_indexed_args` are dropped
by the join, as Polars does). -/
structure MatchedLog where
  log : LogRow
  num_indexed_args : Nat
  full_signature : Option String
  name : Option String
  anonymous : Option Bool
deriving DecidableEq

/-- Output row of the trace matchers: the trace columns plus the catalog
columns appended by the join (the right-side join keys `hash`, `address` are
dropped; `num_indexed_args` is not a join key for traces, so it is carried
through as a nullable data column). -/
structure MatchedTrace where
  trace : TraceRow
  full_signature : Option String
  name : Option String
  anonymous : Option Bool
  num_indexed_args : Option Nat
deriving DecidableEq

/-- The derived attribute of the matcher:
`lit(1 as u32) + topic1.is_not_null() + topic2.is_not_null() + topic3.is_not_null()`. -/
def numIndexedArgs (l : LogRow) : Nat :=
  1 + l.topic1.isSome.toNat + l.topic2.isSome.toNat + l.topic3.isSome.toNat

/-- One left-join step of `match_logs_by_topic0_address` for a single log
row: the catalog rows matching the key triple
(`topic0`,`address`,`num_indexed_args`) = (`hash`,`address`,`num_indexed_args`). -/
def logJoinStep (abi_df : List AbiRow) (l : LogRow) : List MatchedLog :=
  let n := numIndexedArgs l
  let ms := abi_df.filter fun a =>
    decide ((a.hash, a.address, a.num_indexed_args) = (l.topic0, l.address, some n))
  if ms.isEmpty then [⟨l, n, none, none, none⟩]
  else ms.map fun a => ⟨l, n, a.full_signature, a.name, a.anonymous⟩

/-- `match_logs_by_topic0_address`: adds the `num_indexed_args` column to the
log frame and left-joins the catalog on
(`topic0`,`address`,`num_indexed_args`) = (`hash`,`address`,`num_indexed_args`). -/
def match_logs_by_topic0_address (log_df : List LogRow) (abi_df : List AbiRow) :
    List MatchedLog :=
  log_df.flatMap (logJoinStep abi_df)

/-- Generic key-grouping used to model Polars `group_by(...).agg(...)`:
groups in first-occurrence order, each group keeping its key, its first
member and the later members in frame order. -/
def insGroup {α κ : Type} [DecidableEq κ] (key : α → κ) (x : α) :
    List (κ × α × List α) → List (κ × α × List α)
  | [] => [(key x, x, [])]
  | g :: rest =>
    if key x = g.1 then (g.1, g.2.1, g.2.2 ++ [x]) :: rest
    else g :: insGroup key x rest

/-- Model of `group_by` on a whole frame: fold `insGroup` over the rows. -/
def groupBy {α κ : Type} [DecidableEq κ] (key : α → κ) (l : List α) :
    List (κ × α × List α) :=
  l.foldl (fun acc x => insGroup key x acc) []

/-- Stable insertion for the descending sort on a count column: an element is
placed before the first element with a strictly smaller count, hence after
all earlier elements with an equal count. -/
def insDesc {α : Type} (cnt : α → Nat) (x : α) : List α → List α
  | [] => [x]
  | y :: ys => if cnt y < cnt x then x :: y :: ys else y :: insDesc cnt x ys

/-- Stable descending sort by a count column, modeling
`sort("signature_count", SortOptions { descending: true, nulls_last: true })`. -/
def sortByDesc {α : Type} (cnt : α → Nat) (l : List α) : List α :=
  l.foldr (insDesc cnt) []

/-- Group key of the first `group_by` of the log fallback-catalog reduction:
(`hash`, `full_signature`, `name`, `anonymous`, `num_indexed_args`). -/
def logSigKey (a : AbiRow) :
    Nat × Option String × Option String × Option Bool × Option Nat :=
  (a.hash, a.full_signature, a.name, a.anonymous, a.num_indexed_args)

/-- Row of the first aggregation of the log fallback-catalog reduction: the
group-key columns, the first member's `address` (from `all().first()`), and
the member-row count `signature_count` (from `len()`). -/
structure GroupedLogSig where
  hash : Nat
  full_signature : Option String
  name : Option String
  anonymous : Option Bool
  num_indexed_args : Option Nat
  address : Nat
  signature_count : Nat
deriving DecidableEq

/-- The frame produced by
`group_by(["hash","full_signature","name","anonymous","num_indexed_args"]).agg([all().first(), len().alias("signature_count")])`. -/
def logSigCounts (abi_df : List AbiRow) : List GroupedLogSig :=
  (groupBy logSigKey abi_df).map fun t =>
    { hash := t.1.1, full_signature := t.1.2.1, name := t.1.2.2.1,
      anonymous := t.1.2.2.2.1, num_indexed_args := t.1.2.2.2.2,
      address := t.2.1.address, signature_count := (t.2.1 :: t.2.2).length }

/-- Row of the reduced log fallback catalog, after the second `group_by`
keeps one row per (`hash`,`num_indexed_args`) and `address` and
`signature_count` are dropped. -/
structure LogAbiReduced where
  hash : Nat
  num_indexed_args : Option Nat
  full_signature : Option String
  name : Option String
  anonymous : Option Bool
deriving DecidableEq

/-- The reduced log fallback catalog: sort the per-signature counts
descending, keep the first row per (`hash`,`num_indexed_args`), drop
`address` and `signature_count`. -/
def reducedLogAbi (abi_df : List AbiRow) : List LogAbiReduced :=
  (groupBy (fun g : GroupedLogSig => (g.hash, g.num_indexed_args))
      (sortByDesc GroupedLogSig.signature_count (logSigCounts abi_df))).map fun t =>
    { hash := t.1.1, num_indexed_args := t.1.2,
      full_signature := t.2.1.full_signature, name := t.2.1.name,
      anonymous := t.2.1.anonymous }

/-- One left-join step of the log fallback stage, joining an unmatched log
row to the reduced catalog on (`topic0`,`num_indexed_args`) = (`hash`,`num_indexed_args`). -/
def fallbackJoinLogs (abi_reduced : List LogAbiReduced) (l : LogRow) :
    List MatchedLog :=
  let n := numIndexedArgs l
  let ms := abi_reduced.filter fun fb =>
    decide ((fb.hash, fb.num_indexed_args) = (l.topic0, some n))
  if ms.isEmpty then [⟨l, n, none, none, none⟩]
  else ms.map fun fb => ⟨l, n, fb.full_signature, fb.name, fb.anonymous⟩

/-- `match_logs_by_topic0`: run the address-qualified match, split the result
on null-ness of `full_signature`, re-select the unmatched rows down to the
original log columns, left-join them to the reduced fallback catalog, and
vstack the two parts. -/
def match_logs_by_topic0 (log_df : List LogRow) (abi_df : List AbiRow) :
    List MatchedLog :=
  let logs_1 := match_logs_by_topic0_address log_df abi_df
  let logs_address_matched := logs_1.filter fun r => r.full_signature.isSome
  let logs_address_not_matched :=
    (logs_1.filter fun r => r.full_signature.isNone).map MatchedLog.log
  let logs_2 := logs_address_not_matched.flatMap (fallbackJoinLogs (reducedLogAbi abi_df))
  logs_address_matched ++ logs_2

/-- One left-join step of `match_traces_by_4bytes_address` for a single
trace row: the catalog rows matching (`selector`,`action_to`) = (`hash`,`address`). -/
def traceJoinStep (abi_df : List AbiRow) (t : TraceRow) : List MatchedTrace :=
  let ms := abi_df.filter fun a =>
    decide ((a.hash, a.address) = (t.selector, t.action_to))
  if ms.isEmpty then [⟨t, none, none, none, none⟩]
  else ms.map fun a => ⟨t, a.full_signature, a.name, a.anonymous, a.num_indexed_args⟩

/-- `match_traces_by_4bytes_address`: left join of the trace frame with the
catalog on (`selector`,`action_to`) = (`hash`,`address`). -/
def match_traces_by_4bytes_address (trace_df : List TraceRow) (abi_df : List AbiRow) :
    List MatchedTrace :=
  trace_df.flatMap (traceJoinStep abi_df)

/-- Group key of the first `group_by` of the trace fallback-catalog
reduction: (`hash`, `full_signature`, `name`) — no arity column. -/
def traceSigKey (a : AbiRow) : Nat × Option String × Option String :=
  (a.hash, a.full_signature, a.name)

/-- Row of the first aggregation of the trace fallback-catalog reduction:
the group-key columns, the first member's remaining columns, and the
member-row count `signature_count`. -/
structure GroupedTraceSig where
  hash : Nat
  full_signature : Option String
  name : Option String
  address : Nat
  anonymous : Option Bool
  num_indexed_args : Option Nat
  signature_count : Nat
deriving DecidableEq

/-- The frame produced by
`group_by(["hash","full_signature","name"]).agg([all().first(), len().alias("signature_count")])`. -/
def traceSigCounts (abi_df : List AbiRow) : List GroupedTraceSig :=
  (groupBy traceSigKey abi_df).map fun t =>
    { hash := t.1.1, full_signature := t.1.2.1, name := t.1.2.2,
      address := t.2.1.address, anonymous := t.2.1.anonymous,
      num_indexed_args := t.2.1.num_indexed_args,
      signature_count := (t.2.1 :: t.2.2).length }

/-- Row of the reduced trace fallback catalog, after keeping one row per
`hash` and dropping `address` and `signature_count`. -/
structure TraceAbiReduced where
  hash : Nat
  full_signature : Option String
  name : Option String
  anonymous : Option Bool
  num_indexed_args : Option Nat
deriving DecidableEq

/-- The reduced trace fallback catalog: sort the per-signature counts
descending, keep the first row per `hash`, drop `address` and
`signature_count`. -/
def reducedTraceAbi (abi_df : List AbiRow) : List TraceAbiReduced :=
  (groupBy (fun g : GroupedTraceSig => g.hash)
      (sortByDesc GroupedTraceSig.signature_count (traceSigCounts abi_df))).map fun t =>
    { hash := t.1, full_signature := t.2.1.full_signature, name := t.2.1.name,
      anonymous := t.2.1.anonymous, num_indexed_args := t.2.1.num_indexed_args }

/-- One left-join step of the trace fallback stage, joining an unmatched
trace row to the reduced catalog on `selector` = `hash` alone. -/
def fallbackJoinTraces (abi_reduced : List TraceAbiReduced) (t : TraceRow) :
    List MatchedTrace :=
  let ms := abi_reduced.filter fun fb => decide (fb.hash = t.selector)
  if ms.isEmpty then [⟨t, none, none, none, none⟩]
  else ms.map fun fb => ⟨t, fb.full_signature, fb.name, fb.anonymous, fb.num_indexed_args⟩

/-- `match_traces_by_4bytes`: run the address-qualified match, split the
result on null-ness of `full_signature`, re-select the unmatched rows down
to the original trace columns, left-join them to the reduced fallback
catalog on the selector alone, and vstack the two parts. -/
def match_traces_by_4bytes (trace_df : List TraceRow) (abi_df : List AbiRow) :
    List MatchedTrace :=
  let traces_1 := match_traces_by_4bytes_address trace_df abi_df
  let traces_address_matched := traces_1.filter fun r => r.full_signature.isSome
  let traces_address_not_matched :=
    (traces_1.filter fun r => r.full_signature.isNone).map MatchedTrace.trace
  let trace_2 := traces_address_not_matched.flatMap (fallbackJoinTraces (reducedTraceAbi abi_df))
  traces_address_matched ++ trace_2

/-- The single error kind of the matching module: a wrapper around the
relational engine's diagnostic (`#[error("Polars error: {0}")]`, with
`#[from] PolarsError`).  Engine diagnostics are modeled as strings. -/
inductive MatcherError where
  | PolarsError (e : String)
deriving DecidableEq

/-- Model of a fallible engine materialization point (`collect()?`,
`vstack(...)?` or the `?` on an inner matcher call): the engine either
succeeds with the relation the pure model computes, or fails with a
diagnostic `e`, which the `#[from]` conversion wraps as
`MatcherError.PolarsError e`.  The possible engine fault at each point is an
explicit parameter. -/
def collectE {α : Type} (fault : Option String) (x : α) : Except MatcherError α :=
  match fault with
  | some e => Except.error (MatcherError.PolarsError e)
  | none => Except.ok x

/-- `match_logs_by_topic0_address` with its one fallible materialization
point (the `collect()?` of the join) made explicit. -/
def match_logs_by_topic0_addressE (f0 : Option String) (log_df : List LogRow)
    (abi_df : List AbiRow) : Except MatcherError (List MatchedLog) :=
  collectE f0 (match_logs_by_topic0_address log_df abi_df)

/-- `match_logs_by_topic0` with its four fallible points made explicit, in
source order: the inner `match_logs_by_topic0_address(..)?` call, the
`collect()?` of the matched filter, the `collect()?` of the fallback join,
and the `vstack(..)?`.  Each `?` propagates the error immediately. -/
def match_logs_by_topic0E (f0 f1 f2 f3 : Option String) (log_df : List LogRow)
    (abi_df : List AbiRow) : Except MatcherError (List MatchedLog) := do
  let logs_1 ← match_logs_by_topic0_addressE f0 log_df abi_df
  let logs_address_matched ← collectE f1 (logs_1.filter fun r => r.full_signature.isSome)
  let logs_address_not_matched :=
    (logs_1.filter fun r => r.full_signature.isNone).map MatchedLog.log
  let logs_2 ← collectE f2
    (logs_address_not_matched.flatMap (fallbackJoinLogs (reducedLogAbi abi_df)))
  collectE f3 (logs_address_matched ++ logs_2)

/-- `match_traces_by_4bytes_address` with its one fallible materialization
point made explicit. -/
def match_traces_by_4bytes_addressE (f0 : Option String) (trace_df : List TraceRow)
    (abi_df : List AbiRow) : Except MatcherError (List MatchedTrace) :=
  collectE f0 (match_traces_by_4bytes_address trace_df abi_df)

/-- `match_traces_by_4bytes` with its four fallible points made explicit, in
source order. -/
def match_traces_by_4bytesE (f0 f1 f2 f3 : Option String) (trace_df : List TraceRow)
    (abi_df : List AbiRow) : Except MatcherError (List MatchedTrace) := do
  let traces_1 ← match_traces_by_4bytes_addressE f0 trace_df abi_df
  let traces_address_matched ← collectE f1 (traces_1.filter fun r => r.full_signature.isSome)
  let traces_address_not_matched :=
    (traces_1.filter fun r => r.full_signature.isNone).map MatchedTrace.trace
  let trace_2 ← collectE f2
    (traces_address_not_matched.flatMap (fallbackJoinTraces (reducedTraceAbi abi_df)))
  collectE f3 (traces_address_matched ++ trace_2)

/-- Output row of a second application of `match_logs_by_topic0_address` to
an already-matched frame.  The input frame already owns columns
`full_signature`, `name`, `anonymous`, so Polars suffixes the colliding
columns coming from the catalog side of the join with `_right`; the
`with_column` overwrites the existing `num_indexed_args` column (same name),
and the right-side join keys are dropped as usual. -/
structure MatchedLog2 where
  log : LogRow
  num_indexed_args : Nat
  full_signature : Option String
  name : Option String
  anonymous : Option Bool
  full_signature_right : Option String
  name_right : Option String
  anonymous_right : Option Bool
deriving DecidableEq

/-- A second application of `match_logs_by_topic0_address`, taking as the
log frame the output of a first application: `num_indexed_args` is
recomputed from the topic columns (overwriting the column of the same name),
the join key triple is the same, and the catalog columns arrive suffixed
with `_right` because of the name collision. -/
def match_logs_by_topic0_address_rerun (df : List MatchedLog) (abi_df : List AbiRow) :
    List MatchedLog2 :=
  df.flatMap fun r =>
    let n := numIndexedArgs r.log
    let ms := abi_df.filter fun a =>
      decide ((a.hash, a.address, a.num_indexed_args) = (r.log.topic0, r.log.address, some n))
    if ms.isEmpty then
      [⟨r.log, n, r.full_signature, r.name, r.anonymous, none, none, none⟩]
    else ms.map fun a =>
      ⟨r.log, n, r.full_signature, r.name, r.anonymous, a.full_signature, a.name, a.anonymous⟩

/-- A cell value of a materialized DataFrame, for comparing frames of
different schemas by their named columns. -/
inductive ColVal where
  | nat (x : Nat)
  | str (x : String)
  | bool (x : Bool)
  | null
deriving DecidableEq

/-- Render a nullable integer cell. -/
def optNatVal : Option Nat → ColVal
  | some x => ColVal.nat x
  | none => ColVal.null

/-- Render a nullable string cell. -/
def optStrVal : Option String → ColVal
  | some x => ColVal.str x
  | none => ColVal.null

/-- Render a nullable boolean cell. -/
def optBoolVal : Option Bool → ColVal
  | some x => ColVal.bool x
  | none => ColVal.null

/-- The named columns of a first-application output row, in frame order. -/
def MatchedLog.toNamedRow (r : MatchedLog) : List (String × ColVal) :=
  [("topic0", ColVal.nat r.log.topic0), ("topic1", optNatVal r.log.topic1),
   ("topic2", optNatVal r.log.topic2), ("topic3", optNatVal r.log.topic3),
   ("address", ColVal.nat r.log.address),
   ("num_indexed_args", ColVal.nat r.num_indexed_args),
   ("full_signature", optStrVal r.full_signature), ("name", optStrVal r.name),
   ("anonymous", optBoolVal r.anonymous)]

/-- The named columns of a second-application output row, in frame order:
the first application's columns followed by the `_right`-suffixed catalog
columns. -/
def MatchedLog2.toNamedRow (r : MatchedLog2) : List (String × ColVal) :=
  [("topic0", ColVal.nat r.log.topic0), ("topic1", optNatVal r.log.topic1),
   ("topic2", optNatVal r.log.topic2), ("topic3", optNatVal r.log.topic3),
   ("address", ColVal.nat r.log.address),
   ("num_indexed_args", ColVal.nat r.num_indexed_args),
   ("full_signature", optStrVal r.full_signature), ("name", optStrVal r.name),
   ("anonymous", optBoolVal r.anonymous),
   ("full_signature_right", optStrVal r.full_signature_right),
   ("name_right", optStrVal r.name_right),
   ("anonymous_right", optBoolVal r.anonymous_right)]

/-! ### Lemmas about the list models of the relational primitives -/

/-- A filter on an injectively mapped key keeps at most one element. -/
theorem length_filter_key_le_one {α β : Type} [DecidableEq β] (f : α → β) (l : List α)
    (h : (l.map f).Nodup) (t : β) :
    (l.filter fun x => decide (f x = t)).length ≤ 1 := by
  induction l with
  | nil => simp
  | cons a l ih =>
    simp only [List.map_cons, List.nodup_cons] at h
    by_cases ha : f a = t
    · have hnil : l.filter (fun x => decide (f x = t)) = [] := by
        rw [List.filter_eq_nil_iff]
        intro b hb hbt
        simp only [decide_eq_true_eq] at hbt
        exact h.1 (by rw [ha, ← hbt]; exact List.mem_map_of_mem f hb)
      simp [List.filter_cons, ha, hnil]
    · simpa [List.filter_cons, ha] using ih h.2

/-- A `flatMap` whose step always produces one row preserves the row count. -/
theorem length_flatMap_of_forall_one {α β : Type} (f : α → List β) (l : List α)
    (h : ∀ x ∈ l, (f x).length = 1) : (l.flatMap f).length = l.length := by
  induction l with
  | nil => simp
  | cons a l ih =>
    rw [List.flatMap_cons, List.length_append, h a (List.mem_cons_self a l),
      ih fun x hx => h x (List.mem_cons_of_mem a hx)]
    simp [Nat.add_comm]

/-- Splitting a frame on null-ness of one nullable column is a partition:
the two parts' row counts sum to the frame's row count. -/
theorem length_filter_isSome_isNone {α β : Type} (f : α → Option β) (l : List α) :
    (l.filter fun r => (f r).isSome).length + (l.filter fun r => (f r).isNone).length
      = l.length := by
  have h := List.length_eq_length_filter_add (l := l) (fun r => (f r).isSome)
  have h2 : l.filter (fun r => !(f r).isSome) = l.filter (fun r => (f r).isNone) := by
    apply List.filter_congr
    intro x _
    cases f x <;> rfl
  rw [h2] at h
  omega

/-- A left-join step emits exactly one row when at most one right row
matches. -/
theorem length_leftJoinStep {β γ : Type} (ms : List β) (nullRow : γ) (mk : β → γ)
    (h : ms.length ≤ 1) : (if ms.isEmpty then [nullRow] else ms.map mk).length = 1 := by
  cases ms with
  | nil => simp
  | cons a tl =>
    cases tl with
    | nil => simp
    | cons b tl2 => simp at h

/-- The keys of `insGroup`: unchanged when the inserted element's key is
already present, otherwise the new key is appended at the end. -/
theorem keys_insGroup {α κ : Type} [DecidableEq κ] (key : α → κ) (x : α)
    (acc : List (κ × α × List α)) :
    (insGroup key x acc).map (fun t => t.1) =
      if key x ∈ acc.map (fun t => t.1) then acc.map (fun t => t.1)
      else acc.map (fun t => t.1) ++ [key x] := by
  induction acc with
  | nil => simp [insGroup]
  | cons g rest ih =>
    by_cases h : key x = g.1
    · simp [insGroup, h]
    · by_cases h2 : key x ∈ rest.map (fun t => t.1)
      · simp [insGroup, h, h2, ih, Ne.symm h]
      · simp [insGroup, h, h2, ih, Ne.symm h]

/-- Case analysis of membership in `insGroup` (under distinct keys): an
untouched group with a different key, the extended group, or a fresh
singleton group. -/
theorem mem_insGroup {α κ : Type} [DecidableEq κ] {key : α → κ} {x : α}
    {acc : List (κ × α × List α)} (hnd : (acc.map fun t => t.1).Nodup)
    {t : κ × α × List α} (ht : t ∈ insGroup key x acc) :
    (t ∈ acc ∧ t.1 ≠ key x) ∨
    (∃ u ∈ acc, u.1 = key x ∧ t = (key x, u.2.1, u.2.2 ++ [x])) ∨
    (t = (key x, x, []) ∧ key x ∉ acc.map fun t => t.1) := by
  induction acc with
  | nil =>
    simp only [insGroup, List.mem_singleton] at ht
    exact Or.inr (Or.inr ⟨ht, by simp⟩)
  | cons g rest ih =>
    simp only [List.map_cons, List.nodup_cons] at hnd
    by_cases h : key x = g.1
    · simp only [insGroup, if_pos h] at ht
      rcases List.mem_cons.mp ht with h1 | h1
      · refine Or.inr (Or.inl ⟨g, List.mem_cons_self g rest, h.symm, ?_⟩)
        rw [h1, h]
      · refine Or.inl ⟨List.mem_cons_of_mem _ h1, fun hteq => ?_⟩
        have hm : t.1 ∈ rest.map fun t => t.1 := List.mem_map_of_mem (fun t => t.1) h1
        rw [hteq, h] at hm
        exact hnd.1 hm
    · simp only [insGroup, if_neg h] at ht
      rcases List.mem_cons.mp ht with h1 | h1
      · subst h1
        exact Or.inl ⟨List.mem_cons_self t rest, fun he => h he.symm⟩
      · rcases ih hnd.2 h1 with ⟨hm, hne⟩ | ⟨u, hu, hu1, ht2⟩ | ⟨ht2, hnm⟩
        · exact Or.inl ⟨List.mem_cons_of_mem _ hm, hne⟩
        · exact Or.inr (Or.inl ⟨u, List.mem_cons_of_mem _ hu, hu1, ht2⟩)
        · refine Or.inr (Or.inr ⟨ht2, ?_⟩)
          simp only [List.map_cons, List.mem_cons]
          rintro (he | he)
          · exact h he
          · exact hnm he

/-- Invariant of the grouping fold: after processing the rows `p`, the
accumulated groups have pairwise distinct keys, each group holds exactly the
processed rows with its key (in frame order, first member split off), and
every processed row's key owns a group. -/
def GroupsSpec {α κ : Type} [DecidableEq κ] (key : α → κ) (p : List α)
    (acc : List (κ × α × List α)) : Prop :=
  ((acc.map fun t => t.1).Nodup) ∧
  (∀ t ∈ acc, t.2.1 :: t.2.2 = p.filter fun y => decide (key y = t.1)) ∧
  (∀ y ∈ p, key y ∈ acc.map fun t => t.1)

/-- `insGroup` maintains the grouping invariant. -/
theorem groupsSpec_insGroup {α κ : Type} [DecidableEq κ] {key : α → κ} {p : List α}
    {acc : List (κ × α × List α)} (h : GroupsSpec key p acc) (x : α) :
    GroupsSpec key (p ++ [x]) (insGroup key x acc) := by
  obtain ⟨hnd, hflt, hcov⟩ := h
  refine ⟨?_, ?_, ?_⟩
  · rw [keys_insGroup]
    by_cases hmem : key x ∈ acc.map fun t => t.1
    · rwa [if_pos hmem]
    · rw [if_neg hmem, List.nodup_append]
      refine ⟨hnd, List.nodup_singleton _, fun k hk hk2 => ?_⟩
      rw [List.mem_singleton] at hk2
      exact hmem (hk2 ▸ hk)
  · intro t ht
    rcases mem_insGroup hnd ht with ⟨hm, hne⟩ | ⟨u, hu, hu1, ht2⟩ | ⟨ht2, hnm⟩
    · have hx : [x].filter (fun y => decide (key y = t.1)) = [] := by
        simp [Ne.symm hne]
      rw [List.filter_append, hx, List.append_nil]
      exact hflt t hm
    · subst ht2
      have h1 : u.2.1 :: u.2.2 = p.filter fun y => decide (key y = key x) := by
        rw [← hu1]
        exact hflt u hu
      have hx : [x].filter (fun y => decide (key y = key x)) = [x] := by simp
      rw [List.filter_append, hx, ← h1]
      rfl
    · subst ht2
      have hpnil : p.filter (fun y => decide (key y = key x)) = [] := by
        rw [List.filter_eq_nil_iff]
        intro y hy hyt
        simp only [decide_eq_true_eq] at hyt
        exact hnm (hyt ▸ hcov y hy)
      rw [List.filter_append, hpnil]
      simp
  · intro y hy
    rw [keys_insGroup]
    rcases List.mem_append.mp hy with hy | hy
    · have hin := hcov y hy
      by_cases hmem : key x ∈ acc.map fun t => t.1
      · rwa [if_pos hmem]
      · rw [if_neg hmem]
        exact List.mem_append.mpr (Or.inl hin)
    · rw [List.mem_singleton] at hy
      subst hy
      by_cases hmem : key y ∈ acc.map fun t => t.1
      · rwa [if_pos hmem]
      · rw [if_neg hmem]
        exact List.mem_append.mpr (Or.inr (List.mem_singleton.mpr rfl))

/-- The grouping fold maintains the invariant over any suffix of rows. -/
theorem groupsSpec_foldl {α κ : Type} [DecidableEq κ] (key : α → κ) (l : List α) :
    ∀ (p : List α) (acc : List (κ × α × List α)), GroupsSpec key p acc →
      GroupsSpec key (p ++ l) (l.foldl (fun acc x => insGroup key x acc) acc) := by
  induction l with
  | nil => intro p acc h; simpa using h
  | cons x xs ih =>
    intro p acc h
    have h2 := groupsSpec_insGroup h x
    have h3 := ih (p ++ [x]) (insGroup key x acc) h2
    rw [List.foldl_cons]
    rw [List.append_cons]
    exact h3

/-- The grouping model satisfies its invariant on a whole frame. -/
theorem groupBy_spec {α κ : Type} [DecidableEq κ] (key : α → κ) (l : List α) :
    GroupsSpec key l (groupBy key l) := by
  have h := groupsSpec_foldl key l [] [] ⟨by simp, by simp, by simp⟩
  simpa [groupBy] using h

/-- The groups produced by the grouping model have pairwise distinct keys. -/
theorem groupBy_keys_nodup {α κ : Type} [DecidableEq κ] (key : α → κ) (l : List α) :
    ((groupBy key l).map fun t => t.1).Nodup :=
  (groupBy_spec key l).1

/-- Each group holds exactly the frame rows carrying its key, in frame
order. -/
theorem groupBy_members {α κ : Type} [DecidableEq κ] {key : α → κ} {l : List α}
    {t : κ × α × List α} (ht : t ∈ groupBy key l) :
    t.2.1 :: t.2.2 = l.filter fun y => decide (key y = t.1) :=
  (groupBy_spec key l).2.1 t ht

/-- The reduced log fallback catalog has pairwise distinct
(`hash`,`num_indexed_args`) keys. -/
theorem reducedLogAbi_keys_nodup (abi_df : List AbiRow) :
    ((reducedLogAbi abi_df).map fun r => (r.hash, r.num_indexed_args)).Nodup := by
  have h := groupBy_keys_nodup (fun g : GroupedLogSig => (g.hash, g.num_indexed_args))
    (sortByDesc GroupedLogSig.signature_count (logSigCounts abi_df))
  simpa [reducedLogAbi, List.map_map, Function.comp] using h

/-- The reduced trace fallback catalog has pairwise distinct `hash` keys. -/
theorem reducedTraceAbi_keys_nodup (abi_df : List AbiRow) :
    ((reducedTraceAbi abi_df).map TraceAbiReduced.hash).Nodup := by
  have h := groupBy_keys_nodup (fun g : GroupedTraceSig => g.hash)
    (sortByDesc GroupedTraceSig.signature_count (traceSigCounts abi_df))
  simpa [reducedTraceAbi, List.map_map, Function.comp] using h

/-- Under a catalog with unique (`hash`,`address`,`num_indexed_args`)
triples, the address-qualified log join emits exactly one row per log row. -/
theorem length_logJoinStep {abi_df : List AbiRow}
    (h : (abi_df.map fun a => (a.hash, a.address, a.num_indexed_args)).Nodup)
    (l : LogRow) : (logJoinStep abi_df l).length = 1 := by
  simp only [logJoinStep]
  exact length_leftJoinStep _ _ _
    (length_filter_key_le_one (fun a : AbiRow => (a.hash, a.address, a.num_indexed_args))
      abi_df h (l.topic0, l.address, some (numIndexedArgs l)))

/-- Under a catalog with unique (`hash`,`address`) pairs, the
address-qualified trace join emits exactly one row per trace row. -/
theorem length_traceJoinStep {abi_df : List AbiRow}
    (h : (abi_df.map fun a => (a.hash, a.address)).Nodup)
    (t : TraceRow) : (traceJoinStep abi_df t).length = 1 := by
  simp only [traceJoinStep]
  exact length_leftJoinStep _ _ _
    (length_filter_key_le_one (fun a : AbiRow => (a.hash, a.address))
      abi_df h (t.selector, t.action_to))

/-- The log fallback join emits exactly one row per unmatched log row,
because the reduced catalog's keys are unique. -/
theorem length_fallbackJoinLogs (abi_df : List AbiRow) (l : LogRow) :
    (fallbackJoinLogs (reducedLogAbi abi_df) l).length = 1 := by
  simp only [fallbackJoinLogs]
  exact length_leftJoinStep _ _ _
    (length_filter_key_le_one (fun fb : LogAbiReduced => (fb.hash, fb.num_indexed_args))
      (reducedLogAbi abi_df) (reducedLogAbi_keys_nodup abi_df)
      (l.topic0, some (numIndexedArgs l)))

/-- The trace fallback join emits exactly one row per unmatched trace row,
because the reduced catalog's keys are unique. -/
theorem length_fallbackJoinTraces (abi_df : List AbiRow) (t : TraceRow) :
    (fallbackJoinTraces (reducedTraceAbi abi_df) t).length = 1 := by
  simp only [fallbackJoinTraces]
  exact length_leftJoinStep _ _ _
    (length_filter_key_le_one TraceAbiReduced.hash
      (reducedTraceAbi abi_df) (reducedTraceAbi_keys_nodup abi_df) t.selector)

/-- Every row emitted by the address-qualified log join step carries the log
row it came from and its recomputed arity. -/
theorem log_of_mem_logJoinStep {abi_df : List AbiRow} {l : LogRow} {r : MatchedLog}
    (hr : r ∈ logJoinStep abi_df l) :
    r.log = l ∧ r.num_indexed_args = numIndexedArgs l := by
  simp only [logJoinStep] at hr
  split at hr
  · rw [List.mem_singleton] at hr
    subst hr
    exact ⟨rfl, rfl⟩
  · obtain ⟨a, _, rfl⟩ := List.mem_map.mp hr
    exact ⟨rfl, rfl⟩

/-- Every row emitted by the log fallback join step carries the log row it
came from and its recomputed arity. -/
theorem log_of_mem_fallbackJoinLogs {red : List LogAbiReduced} {l : LogRow}
    {r : MatchedLog} (hr : r ∈ fallbackJoinLogs red l) :
    r.log = l ∧ r.num_indexed_args = numIndexedArgs l := by
  simp only [fallbackJoinLogs] at hr
  split at hr
  · rw [List.mem_singleton] at hr
    subst hr
    exact ⟨rfl, rfl⟩
  · obtain ⟨fb, _, rfl⟩ := List.mem_map.mp hr
    exact ⟨rfl, rfl⟩

/-- Every row emitted by the address-qualified trace join step carries the
trace row it came from. -/
theorem trace_of_mem_traceJoinStep {abi_df : List AbiRow} {t : TraceRow}
    {r : MatchedTrace} (hr : r ∈ traceJoinStep abi_df t) : r.trace = t := by
  simp only [traceJoinStep] at hr
  split at hr
  · rw [List.mem_singleton] at hr
    subst hr
    rfl
  · obtain ⟨a, _, rfl⟩ := List.mem_map.mp hr
    rfl

/-- Every row emitted by the trace fallback join step carries the trace row
it came from. -/
theorem trace_of_mem_fallbackJoinTraces {red : List TraceAbiReduced} {t : TraceRow}
    {r : MatchedTrace} (hr : r ∈ fallbackJoinTraces red t) : r.trace = t := by
  simp only [fallbackJoinTraces] at hr
  split at hr
  · rw [List.mem_singleton] at hr
    subst hr
    rfl
  · obtain ⟨fb, _, rfl⟩ := List.mem_map.mp hr
    rfl

/-- The derived arity is one plus the number of non-null optional topics,
and lies between 1 and 4. -/
theorem numIndexedArgs_eq_count (l : LogRow) :
    numIndexedArgs l =
      1 + ([l.topic1, l.topic2, l.topic3].filter Option.isSome).length ∧
    1 ≤ numIndexedArgs l ∧ numIndexedArgs l ≤ 4 := by
  rcases l with ⟨t0, t1, t2, t3, ad⟩
  cases t1 <;> cases t2 <;> cases t3 <;> simp [numIndexedArgs]

/-! ### Claim theorems -/

/-- C1, counterexample: a catalog whose (`hash`,`address`,`num_indexed_args`)
triples are unique can still duplicate a (`hash`,`address`) pair, and the
trace stage-1 join key is (`hash`,`address`) only, so a single trace row is
multiplied: the output has 2 rows for 1 input row. -/
theorem C1_row_count_cex :
    (([⟨5, 7, some "f()", some "f", none, some 1⟩,
       ⟨5, 7, some "g()", some "g", none, some 2⟩] : List AbiRow).map
        fun a => (a.hash, a.address, a.num_indexed_args)).Nodup ∧
    (match_traces_by_4bytes [⟨5, 7⟩]
        [⟨5, 7, some "f()", some "f", none, some 1⟩,
         ⟨5, 7, some "g()", some "g", none, some 2⟩]).length ≠
      ([⟨5, 7⟩] : List TraceRow).length := by
  decide

/-- C1 (amended): the two-phase matchers neither drop nor duplicate input
records — the log matcher whenever the catalog's
(`hash`,`address`,`num_indexed_args`) triples are unique, and the trace
matcher whenever the catalog's (`hash`,`address`) pairs are unique (the
trace stage-1 join key has no arity component, so unique triples alone do
not prevent stage-1 row multiplication). -/
theorem C1_row_count (log_df : List LogRow) (trace_df : List TraceRow)
    (abi_df : List AbiRow) :
    ((abi_df.map fun a => (a.hash, a.address, a.num_indexed_args)).Nodup →
      (match_logs_by_topic0 log_df abi_df).length = log_df.length) ∧
    ((abi_df.map fun a => (a.hash, a.address)).Nodup →
      (match_traces_by_4bytes trace_df abi_df).length = trace_df.length) := by
  constructor
  · intro h
    have h1 : (match_logs_by_topic0_address log_df abi_df).length = log_df.length :=
      length_flatMap_of_forall_one _ _ fun l _ => length_logJoinStep h l
    have h2 := length_filter_isSome_isNone MatchedLog.full_signature
      (match_logs_by_topic0_address log_df abi_df)
    have h3 : ((((match_logs_by_topic0_address log_df abi_df).filter fun r =>
          r.full_signature.isNone).map MatchedLog.log).flatMap
            (fallbackJoinLogs (reducedLogAbi abi_df))).length =
        (((match_logs_by_topic0_address log_df abi_df).filter fun r =>
          r.full_signature.isNone).map MatchedLog.log).length :=
      length_flatMap_of_forall_one _ _ fun l _ => length_fallbackJoinLogs abi_df l
    simp only [match_logs_by_topic0]
    rw [List.length_append, h3, List.length_map]
    omega
  · intro h
    have h1 : (match_traces_by_4bytes_address trace_df abi_df).length = trace_df.length :=
      length_flatMap_of_forall_one _ _ fun t _ => length_traceJoinStep h t
    have h2 := length_filter_isSome_isNone MatchedTrace.full_signature
      (match_traces_by_4bytes_address trace_df abi_df)
    have h3 : ((((match_traces_by_4bytes_address trace_df abi_df).filter fun r =>
          r.full_signature.isNone).map MatchedTrace.trace).flatMap
            (fallbackJoinTraces (reducedTraceAbi abi_df))).length =
        (((match_traces_by_4bytes_address trace_df abi_df).filter fun r =>
          r.full_signature.isNone).map MatchedTrace.trace).length :=
      length_flatMap_of_forall_one _ _ fun t _ => length_fallbackJoinTraces abi_df t
    simp only [match_traces_by_4bytes]
    rw [List.length_append, h3, List.length_map]
    omega

/-- C1, witness: the amended theorem applied at a concrete log, trace and
catalog satisfying both uniqueness hypotheses. -/
theorem C1_row_count_witness :
    (match_logs_by_topic0 [⟨1, some 7, none, none, 170⟩]
        [⟨1, 170, some "T(a)", some "T", some false, some 2⟩]).length = 1 ∧
    (match_traces_by_4bytes [⟨1, 170⟩]
        [⟨1, 170, some "T(a)", some "T", some false, some 2⟩]).length = 1 :=
  ⟨(C1_row_count [⟨1, some 7, none, none, 170⟩] [⟨1, 170⟩]
      [⟨1, 170, some "T(a)", some "T", some false, some 2⟩]).1 (by decide),
   (C1_row_count [⟨1, some 7, none, none, 170⟩] [⟨1, 170⟩]
      [⟨1, 170, some "T(a)", some "T", some false, some 2⟩]).2 (by decide)⟩

/-- C2: every row produced by the log matchers carries
`num_indexed_args = 1 + (number of non-null topics among topic1..topic3)`,
which always lies in the range [1,4]. -/
theorem C2_num_indexed_args (log_df : List LogRow) (abi_df : List AbiRow)
    (r : MatchedLog)
    (hr : r ∈ match_logs_by_topic0_address log_df abi_df ∨
      r ∈ match_logs_by_topic0 log_df abi_df) :
    r.num_indexed_args =
      1 + ([r.log.topic1, r.log.topic2, r.log.topic3].filter Option.isSome).length ∧
    1 ≤ r.num_indexed_args ∧ r.num_indexed_args ≤ 4 := by
  have key : r.num_indexed_args = numIndexedArgs r.log := by
    rcases hr with hr | hr
    · simp only [match_logs_by_topic0_address] at hr
      obtain ⟨l, _, hstep⟩ := List.mem_flatMap.mp hr
      obtain ⟨hlog, hn⟩ := log_of_mem_logJoinStep hstep
      rw [hn, hlog]
    · simp only [match_logs_by_topic0] at hr
      rcases List.mem_append.mp hr with hr | hr
      · have hr2 := List.mem_of_mem_filter hr
        simp only [match_logs_by_topic0_address] at hr2
        obtain ⟨l, _, hstep⟩ := List.mem_flatMap.mp hr2
        obtain ⟨hlog, hn⟩ := log_of_mem_logJoinStep hstep
        rw [hn, hlog]
      · obtain ⟨l, _, hstep⟩ := List.mem_flatMap.mp hr
        obtain ⟨hlog, hn⟩ := log_of_mem_fallbackJoinLogs hstep
        rw [hn, hlog]
  obtain ⟨he, hb⟩ := numIndexedArgs_eq_count r.log
  rw [key]
  exact ⟨he, hb⟩

/-- C2, witness: the theorem applied to the single output row of a concrete
match call (one non-null topic, so arity 2). -/
theorem C2_num_indexed_args_witness :
    ((⟨⟨1, some 7, none, none, 170⟩, 2, none, none, none⟩ : MatchedLog) ∈
        match_logs_by_topic0_address [⟨1, some 7, none, none, 170⟩] [] ∨
      (⟨⟨1, some 7, none, none, 170⟩, 2, none, none, none⟩ : MatchedLog) ∈
        match_logs_by_topic0 [⟨1, some 7, none, none, 170⟩] []) ∧
    ((⟨⟨1, some 7, none, none, 170⟩, 2, none, none, none⟩ : MatchedLog).num_indexed_args =
      1 + ([(⟨⟨1, some 7, none, none, 170⟩, 2, none, none, none⟩ : MatchedLog).log.topic1,
            (⟨⟨1, some 7, none, none, 170⟩, 2, none, none, none⟩ : MatchedLog).log.topic2,
            (⟨⟨1, some 7, none, none, 170⟩, 2, none, none, none⟩ : MatchedLog).log.topic3].filter
          Option.isSome).length ∧
     1 ≤ (⟨⟨1, some 7, none, none, 170⟩, 2, none, none, none⟩ : MatchedLog).num_indexed_args ∧
     (⟨⟨1, some 7, none, none, 170⟩, 2, none, none, none⟩ : MatchedLog).num_indexed_args ≤ 4) :=
  ⟨Or.inl (by decide),
   C2_num_indexed_args [⟨1, some 7, none, none, 170⟩] [] _ (Or.inl (by decide))⟩

/-- C3: the address-qualified log matcher is a left join on the triple
(`topic0`,`address`,`num_indexed_args`): a log row matching no catalog
triple yields its null-extended row, a log row matching a catalog row yields
the row extended with that catalog row's signature columns, and every output
row stems from an input log row. -/
theorem C3_left_join (log_df : List LogRow) (abi_df : List AbiRow) :
    (∀ l ∈ log_df,
      ((∀ a ∈ abi_df,
          (a.hash, a.address, a.num_indexed_args) ≠
            (l.topic0, l.address, some (numIndexedArgs l))) →
        (⟨l, numIndexedArgs l, none, none, none⟩ : MatchedLog) ∈
          match_logs_by_topic0_address log_df abi_df) ∧
      (∀ a ∈ abi_df,
        (a.hash, a.address, a.num_indexed_args) =
          (l.topic0, l.address, some (numIndexedArgs l)) →
        (⟨l, numIndexedArgs l, a.full_signature, a.name, a.anonymous⟩ : MatchedLog) ∈
          match_logs_by_topic0_address log_df abi_df)) ∧
    (∀ r ∈ match_logs_by_topic0_address log_df abi_df, r.log ∈ log_df) := by
  constructor
  · intro l hl
    constructor
    · intro hnone
      have hfil : abi_df.filter (fun a =>
          decide ((a.hash, a.address, a.num_indexed_args) =
            (l.topic0, l.address, some (numIndexedArgs l)))) = [] := by
        rw [List.filter_eq_nil_iff]
        intro a ha hdec
        simp only [decide_eq_true_eq] at hdec
        exact hnone a ha hdec
      simp only [match_logs_by_topic0_address]
      refine List.mem_flatMap.mpr ⟨l, hl, ?_⟩
      simp only [logJoinStep]
      rw [hfil]
      simp
    · intro a ha heq
      have hmem : a ∈ abi_df.filter (fun a =>
          decide ((a.hash, a.address, a.num_indexed_args) =
            (l.topic0, l.address, some (numIndexedArgs l)))) :=
        List.mem_filter.mpr ⟨ha, by simp [heq]⟩
      simp only [match_logs_by_topic0_address]
      refine List.mem_flatMap.mpr ⟨l, hl, ?_⟩
      simp only [logJoinStep]
      rw [if_neg (by rw [Bool.not_eq_true, List.isEmpty_eq_false]; exact List.ne_nil_of_mem hmem)]
      exact List.mem_map_of_mem _ hmem
  · intro r hr
    simp only [match_logs_by_topic0_address] at hr
    obtain ⟨l, hl, hstep⟩ := List.mem_flatMap.mp hr
    rw [(log_of_mem_logJoinStep hstep).1]
    exact hl

/-- C3, witness: the theorem applied to a concrete log and a catalog with a
matching triple, producing the populated row. -/
theorem C3_left_join_witness :
    (⟨⟨1, some 7, none, none, 170⟩, 2, some "T(a)", some "T", some false⟩ : MatchedLog) ∈
      match_logs_by_topic0_address [⟨1, some 7, none, none, 170⟩]
        [⟨1, 170, some "T(a)", some "T", some false, some 2⟩] :=
  ((C3_left_join [⟨1, some 7, none, none, 170⟩]
      [⟨1, 170, some "T(a)", some "T", some false, some 2⟩]).1
    ⟨1, some 7, none, none, 170⟩ (by decide)).2
    ⟨1, 170, some "T(a)", some "T", some false, some 2⟩ (by decide) (by decide)

/-- Modelled from the spec's wording for comparison with the code's count:
the distinct addresses declaring a given log grouping key
(`hash`,`full_signature`,`name`,`anonymous`,`num_indexed_args`) in the
catalog. -/
def declaringAddressesLogs (abi_df : List AbiRow)
    (k : Nat × Option String × Option String × Option Bool × Option Nat) : List Nat :=
  ((abi_df.filter fun a => decide (logSigKey a = k)).map AbiRow.address).dedup

/-- Modelled from the spec's wording for comparison with the code's count:
the distinct addresses declaring a given trace grouping key
(`hash`,`full_signature`,`name`) in the catalog. -/
def declaringAddressesTraces (abi_df : List AbiRow)
    (k : Nat × Option String × Option String) : List Nat :=
  ((abi_df.filter fun a => decide (traceSigKey a = k)).map AbiRow.address).dedup

/-- C4, counterexample: with a catalog holding the same
(hash, signature, name, anonymous, arity, address) row twice, the code's
`signature_count` for the single group is 2 while only 1 distinct address
declares the signature, so the per-group row count does not coincide with
the distinct-address count for every catalog. -/
theorem C4_signature_count_cex :
    logSigCounts [⟨1, 2, some "s", some "n", some false, some 1⟩,
        ⟨1, 2, some "s", some "n", some false, some 1⟩] =
      [⟨1, some "s", some "n", some false, some 1, 2, 2⟩] ∧
    (declaringAddressesLogs
        [⟨1, 2, some "s", some "n", some false, some 1⟩,
         ⟨1, 2, some "s", some "n", some false, some 1⟩]
        (1, some "s", some "n", some false, some 1)).length = 1 ∧
    (2 : Nat) ≠ 1 := by
  decide

/-- C4 (amended): the `signature_count` of each group equals the number of
catalog rows carrying the group's key; it coincides with the
distinct-address count exactly when no address repeats inside the group
(e.g. duplicate catalog rows break the coincidence). -/
theorem C4_signature_count (abi_df : List AbiRow) :
    (∀ g ∈ logSigCounts abi_df,
      g.signature_count = (abi_df.filter fun a => decide (logSigKey a =
          (g.hash, g.full_signature, g.name, g.anonymous, g.num_indexed_args))).length ∧
      (((abi_df.filter fun a => decide (logSigKey a =
            (g.hash, g.full_signature, g.name, g.anonymous, g.num_indexed_args))).map
              AbiRow.address).Nodup →
        g.signature_count = (declaringAddressesLogs abi_df
          (g.hash, g.full_signature, g.name, g.anonymous, g.num_indexed_args)).length)) ∧
    (∀ g ∈ traceSigCounts abi_df,
      g.signature_count = (abi_df.filter fun a => decide (traceSigKey a =
          (g.hash, g.full_signature, g.name))).length ∧
      (((abi_df.filter fun a => decide (traceSigKey a =
            (g.hash, g.full_signature, g.name))).map AbiRow.address).Nodup →
        g.signature_count = (declaringAddressesTraces abi_df
          (g.hash, g.full_signature, g.name)).length)) := by
  constructor
  · intro g hg
    simp only [logSigCounts] at hg
    obtain ⟨t, ht, rfl⟩ := List.mem_map.mp hg
    have hmem := groupBy_members ht
    have h1 : (t.2.1 :: t.2.2).length = (abi_df.filter fun a =>
        decide (logSigKey a = t.1)).length := congrArg List.length hmem
    refine ⟨h1, fun hnd => ?_⟩
    have h2 : ((abi_df.filter fun a => decide (logSigKey a = t.1)).map
        AbiRow.address).dedup = (abi_df.filter fun a =>
          decide (logSigKey a = t.1)).map AbiRow.address :=
      List.dedup_eq_self.mpr hnd
    show (t.2.1 :: t.2.2).length = _
    rw [declaringAddressesLogs]
    rw [show ((abi_df.filter fun a => decide (logSigKey a =
        (t.1.1, t.1.2.1, t.1.2.2.1, t.1.2.2.2.1, t.1.2.2.2.2))).map AbiRow.address) =
        ((abi_df.filter fun a => decide (logSigKey a = t.1)).map AbiRow.address) from rfl]
    rw [h2, List.length_map]
    exact h1
  · intro g hg
    simp only [traceSigCounts] at hg
    obtain ⟨t, ht, rfl⟩ := List.mem_map.mp hg
    have hmem := groupBy_members ht
    have h1 : (t.2.1 :: t.2.2).length = (abi_df.filter fun a =>
        decide (traceSigKey a = t.1)).length := congrArg List.length hmem
    refine ⟨h1, fun hnd => ?_⟩
    have h2 : ((abi_df.filter fun a => decide (traceSigKey a = t.1)).map
        AbiRow.address).dedup = (abi_df.filter fun a =>
          decide (traceSigKey a = t.1)).map AbiRow.address :=
      List.dedup_eq_self.mpr hnd
    show (t.2.1 :: t.2.2).length = _
    rw [declaringAddressesTraces]
    rw [show ((abi_df.filter fun a => decide (traceSigKey a =
        (t.1.1, t.1.2.1, t.1.2.2))).map AbiRow.address) =
        ((abi_df.filter fun a => decide (traceSigKey a = t.1)).map AbiRow.address) from rfl]
    rw [h2, List.length_map]
    exact h1

/-- C4, witness: the amended theorem applied to a one-row catalog, where the
group count is 1 and coincides with the single declaring address. -/
theorem C4_signature_count_witness :
    ((⟨1, some "s", some "n", some false, some 1, 2, 1⟩ : GroupedLogSig).signature_count =
      (([⟨1, 2, some "s", some "n", some false, some 1⟩] : List AbiRow).filter fun a =>
        decide (logSigKey a = (1, some "s", some "n", some false, some 1))).length) ∧
    ((⟨1, some "s", some "n", some false, some 1, 2, 1⟩ : GroupedLogSig).signature_count =
      (declaringAddressesLogs [⟨1, 2, some "s", some "n", some false, some 1⟩]
        (1, some "s", some "n", some false, some 1)).length) :=
  ⟨((C4_signature_count [⟨1, 2, some "s", some "n", some false, some 1⟩]).1
      ⟨1, some "s", some "n", some false, some 1, 2, 1⟩ (by decide)).1,
   ((C4_signature_count [⟨1, 2, some "s", some "n", some false, some 1⟩]).1
      ⟨1, some "s", some "n", some false, some 1, 2, 1⟩ (by decide)).2 (by decide)⟩

/-- C5: the reduced fallback catalogs are unique-keyed — at most one row per
(`hash`,`num_indexed_args`) pair for logs and at most one row per `hash` for
traces (the `address` and `signature_count` columns are absent from the
reduced rows by construction). -/
theorem C5_reduced_unique (abi_df : List AbiRow) :
    ((reducedLogAbi abi_df).map fun r => (r.hash, r.num_indexed_args)).Nodup ∧
    ((reducedTraceAbi abi_df).map TraceAbiReduced.hash).Nodup :=
  ⟨reducedLogAbi_keys_nodup abi_df, reducedTraceAbi_keys_nodup abi_df⟩

/-- C6: majority tie-break for logs — with signature A declared at three
addresses and signature B at one address for the same hash and arity 2, an
arity-2 log with that hash whose address matches no catalog entry resolves
to A through the frequency fallback. -/
theorem C6_majority (H : Nat) (A B : String) (hAB : A ≠ B) :
    match_logs_by_topic0 [⟨H, some 7, none, none, 99⟩]
      [⟨H, 10, some A, some "na", some false, some 2⟩,
       ⟨H, 11, some A, some "na", some false, some 2⟩,
       ⟨H, 12, some A, some "na", some false, some 2⟩,
       ⟨H, 20, some B, some "nb", some false, some 2⟩] =
    [⟨⟨H, some 7, none, none, 99⟩, 2, some A, some "na", some false⟩] := by
  simp [match_logs_by_topic0, match_logs_by_topic0_address, logJoinStep, numIndexedArgs,
    reducedLogAbi, logSigCounts, logSigKey, groupBy, insGroup, sortByDesc, insDesc,
    fallbackJoinLogs, hAB, Ne.symm hAB, List.flatMap_cons, List.filter_cons]

/-- C6, witness: the majority scenario at hash 5 with signatures "A" and
"B". -/
theorem C6_majority_witness :
    match_logs_by_topic0 [⟨5, some 7, none, none, 99⟩]
      [⟨5, 10, some "A", some "na", some false, some 2⟩,
       ⟨5, 11, some "A", some "na", some false, some 2⟩,
       ⟨5, 12, some "A", some "na", some false, some 2⟩,
       ⟨5, 20, some "B", some "nb", some false, some 2⟩] =
    [⟨⟨5, some 7, none, none, 99⟩, 2, some "A", some "na", some false⟩] :=
  C6_majority 5 "A" "B" (by decide)

/-- C7: trace fallback is address-independent — a trace whose
(selector, action_to) pair is absent from the catalog still receives the
signature of the catalog's only entry for that selector, despite the
address mismatch, because the fallback join key is the selector alone. -/
theorem C7_trace_fallback (S1 dd ee : Nat) (sig nm : String) (anon : Option Bool)
    (nia : Option Nat) (h : dd ≠ ee) :
    match_traces_by_4bytes [⟨S1, dd⟩] [⟨S1, ee, some sig, some nm, anon, nia⟩] =
      [⟨⟨S1, dd⟩, some sig, some nm, anon, nia⟩] := by
  simp [match_traces_by_4bytes, match_traces_by_4bytes_address, traceJoinStep,
    reducedTraceAbi, traceSigCounts, traceSigKey, groupBy, insGroup, sortByDesc, insDesc,
    fallbackJoinTraces, h, Ne.symm h, List.flatMap_cons, List.filter_cons]

/-- C7, witness: the trace fallback scenario at selector 9 with mismatching
addresses 64 and 48. -/
theorem C7_trace_fallback_witness :
    match_traces_by_4bytes [⟨9, 64⟩]
        [⟨9, 48, some "transfer(address,uint256)", some "transfer", none, some 0⟩] =
      [⟨⟨9, 64⟩, some "transfer(address,uint256)", some "transfer", none, some 0⟩] :=
  C7_trace_fallback 9 64 48 "transfer(address,uint256)" "transfer" none (some 0) (by decide)

/-- A log row whose key triple matches a catalog row appears in the
address-qualified output extended with that catalog row's signature
columns. -/
theorem mem_logJoin_of_match {log_df : List LogRow} {abi_df : List AbiRow}
    {l : LogRow} {a : AbiRow} (hl : l ∈ log_df) (ha : a ∈ abi_df)
    (heq : (a.hash, a.address, a.num_indexed_args) =
      (l.topic0, l.address, some (numIndexedArgs l))) :
    (⟨l, numIndexedArgs l, a.full_signature, a.name, a.anonymous⟩ : MatchedLog) ∈
      match_logs_by_topic0_address log_df abi_df := by
  have hmem : a ∈ abi_df.filter (fun a =>
      decide ((a.hash, a.address, a.num_indexed_args) =
        (l.topic0, l.address, some (numIndexedArgs l)))) :=
    List.mem_filter.mpr ⟨ha, by simp [heq]⟩
  simp only [match_logs_by_topic0_address]
  refine List.mem_flatMap.mpr ⟨l, hl, ?_⟩
  simp only [logJoinStep]
  rw [if_neg (by rw [Bool.not_eq_true, List.isEmpty_eq_false]; exact List.ne_nil_of_mem hmem)]
  exact List.mem_map_of_mem _ hmem

/-- A trace row whose key pair matches a catalog row appears in the
address-qualified output extended with that catalog row's signature
columns. -/
theorem mem_traceJoin_of_match {trace_df : List TraceRow} {abi_df : List AbiRow}
    {t : TraceRow} {a : AbiRow} (ht : t ∈ trace_df) (ha : a ∈ abi_df)
    (heq : (a.hash, a.address) = (t.selector, t.action_to)) :
    (⟨t, a.full_signature, a.name, a.anonymous, a.num_indexed_args⟩ : MatchedTrace) ∈
      match_traces_by_4bytes_address trace_df abi_df := by
  have hmem : a ∈ abi_df.filter (fun a =>
      decide ((a.hash, a.address) = (t.selector, t.action_to))) :=
    List.mem_filter.mpr ⟨ha, by simp [heq]⟩
  simp only [match_traces_by_4bytes_address]
  refine List.mem_flatMap.mpr ⟨t, ht, ?_⟩
  simp only [traceJoinStep]
  rw [if_neg (by rw [Bool.not_eq_true, List.isEmpty_eq_false]; exact List.ne_nil_of_mem hmem)]
  exact List.mem_map_of_mem _ hmem

/-- C10: the matched/unmatched partition is decided solely by null-ness of
the joined `full_signature` column, not by join success — a log or trace
record whose key does match a catalog row carrying a null `full_signature`
is classified as unmatched (it appears in the re-selected fallback input)
and its frequency-fallback rows are part of the final output. -/
theorem C10_null_signature_partition (log_df : List LogRow) (trace_df : List TraceRow)
    (abi_df : List AbiRow) :
    (∀ l ∈ log_df, ∀ a ∈ abi_df,
      (a.hash, a.address, a.num_indexed_args) =
        (l.topic0, l.address, some (numIndexedArgs l)) →
      a.full_signature = none →
      l ∈ ((match_logs_by_topic0_address log_df abi_df).filter fun r =>
            r.full_signature.isNone).map MatchedLog.log ∧
      ∀ r ∈ fallbackJoinLogs (reducedLogAbi abi_df) l,
        r ∈ match_logs_by_topic0 log_df abi_df) ∧
    (∀ t ∈ trace_df, ∀ a ∈ abi_df,
      (a.hash, a.address) = (t.selector, t.action_to) →
      a.full_signature = none →
      t ∈ ((match_traces_by_4bytes_address trace_df abi_df).filter fun r =>
            r.full_signature.isNone).map MatchedTrace.trace ∧
      ∀ r ∈ fallbackJoinTraces (reducedTraceAbi abi_df) t,
        r ∈ match_traces_by_4bytes trace_df abi_df) := by
  constructor
  · intro l hl a ha heq hfs
    have hrow := mem_logJoin_of_match hl ha heq
    rw [hfs] at hrow
    have hin : l ∈ ((match_logs_by_topic0_address log_df abi_df).filter fun r =>
        r.full_signature.isNone).map MatchedLog.log :=
      List.mem_map.mpr ⟨⟨l, numIndexedArgs l, none, a.name, a.anonymous⟩,
        List.mem_filter.mpr ⟨hrow, rfl⟩, rfl⟩
    refine ⟨hin, fun r hrf => ?_⟩
    simp only [match_logs_by_topic0]
    exact List.mem_append.mpr (Or.inr (List.mem_flatMap.mpr ⟨l, hin, hrf⟩))
  · intro t ht a ha heq hfs
    have hrow := mem_traceJoin_of_match ht ha heq
    rw [hfs] at hrow
    have hin : t ∈ ((match_traces_by_4bytes_address trace_df abi_df).filter fun r =>
        r.full_signature.isNone).map MatchedTrace.trace :=
      List.mem_map.mpr ⟨⟨t, none, a.name, a.anonymous, a.num_indexed_args⟩,
        List.mem_filter.mpr ⟨hrow, rfl⟩, rfl⟩
    refine ⟨hin, fun r hrf => ?_⟩
    simp only [match_traces_by_4bytes]
    exact List.mem_append.mpr (Or.inr (List.mem_flatMap.mpr ⟨t, hin, hrf⟩))

/-- C10, witness: a log whose triple matches a null-signature catalog row is
sent through the fallback, which resolves it to the majority signature "S"
of the remaining entries. -/
theorem C10_null_signature_partition_witness :
    (⟨⟨5, some 7, none, none, 50⟩, 2, some "S", some "nb", some false⟩ : MatchedLog) ∈
      match_logs_by_topic0 [⟨5, some 7, none, none, 50⟩]
        [⟨5, 50, none, some "x", some false, some 2⟩,
         ⟨5, 60, some "S", some "nb", some false, some 2⟩,
         ⟨5, 61, some "S", some "nb", some false, some 2⟩] :=
  ((C10_null_signature_partition [⟨5, some 7, none, none, 50⟩] []
      [⟨5, 50, none, some "x", some false, some 2⟩,
       ⟨5, 60, some "S", some "nb", some false, some 2⟩,
       ⟨5, 61, some "S", some "nb", some false, some 2⟩]).1
    ⟨5, some 7, none, none, 50⟩ (by decide)
    ⟨5, 50, none, some "x", some false, some 2⟩ (by decide) (by decide) (by decide)).2
    ⟨⟨5, some 7, none, none, 50⟩, 2, some "S", some "nb", some false⟩ (by decide)

/-- C8: each matching function either returns the complete output relation
(when no engine fault occurs) or propagates the first engine fault as the
single wrapped `MatcherError` kind — whatever faults the engine raises at
the four fallible points, there is no partial output and no swallowed
fault. -/
theorem C8_error_propagation (f0 f1 f2 f3 : Option String) (log_df : List LogRow)
    (trace_df : List TraceRow) (abi_df : List AbiRow) :
    (match_logs_by_topic0E f0 f1 f2 f3 log_df abi_df =
        Except.ok (match_logs_by_topic0 log_df abi_df) ∨
      ∃ e, match_logs_by_topic0E f0 f1 f2 f3 log_df abi_df =
          Except.error (MatcherError.PolarsError e) ∧
        (f0 = some e ∨ f1 = some e ∨ f2 = some e ∨ f3 = some e)) ∧
    (match_traces_by_4bytesE f0 f1 f2 f3 trace_df abi_df =
        Except.ok (match_traces_by_4bytes trace_df abi_df) ∨
      ∃ e, match_traces_by_4bytesE f0 f1 f2 f3 trace_df abi_df =
          Except.error (MatcherError.PolarsError e) ∧
        (f0 = some e ∨ f1 = some e ∨ f2 = some e ∨ f3 = some e)) := by
  constructor
  · rcases f0 with _ | e0
    · rcases f1 with _ | e1
      · rcases f2 with _ | e2
        · rcases f3 with _ | e3
          · exact Or.inl rfl
          · exact Or.inr ⟨e3, rfl, by simp⟩
        · exact Or.inr ⟨e2, rfl, by simp⟩
      · exact Or.inr ⟨e1, rfl, by simp⟩
    · exact Or.inr ⟨e0, rfl, by simp⟩
  · rcases f0 with _ | e0
    · rcases f1 with _ | e1
      · rcases f2 with _ | e2
        · rcases f3 with _ | e3
          · exact Or.inl rfl
          · exact Or.inr ⟨e3, rfl, by simp⟩
        · exact Or.inr ⟨e2, rfl, by simp⟩
      · exact Or.inr ⟨e1, rfl, by simp⟩
    · exact Or.inr ⟨e0, rfl, by simp⟩

/-- The second application distributes over vertical concatenation. -/
theorem rerun_append (xs ys : List MatchedLog) (abi_df : List AbiRow) :
    match_logs_by_topic0_address_rerun (xs ++ ys) abi_df =
      match_logs_by_topic0_address_rerun xs abi_df ++
        match_logs_by_topic0_address_rerun ys abi_df := by
  simp only [match_logs_by_topic0_address_rerun]
  exact List.flatMap_append xs ys _

/-- The second application on a one-row frame, written out: the row's log
columns are re-joined on the same key triple, the existing signature columns
pass through, and the incoming catalog columns land in the suffixed slots. -/
theorem rerun_one (l : LogRow) (n : Nat) (fs nm : Option String) (an : Option Bool)
    (abi_df : List AbiRow) :
    match_logs_by_topic0_address_rerun [⟨l, n, fs, nm, an⟩] abi_df =
      (if (abi_df.filter fun a => decide ((a.hash, a.address, a.num_indexed_args) =
          (l.topic0, l.address, some (numIndexedArgs l)))).isEmpty then
        [⟨l, numIndexedArgs l, fs, nm, an, none, none, none⟩]
      else (abi_df.filter fun a => decide ((a.hash, a.address, a.num_indexed_args) =
          (l.topic0, l.address, some (numIndexedArgs l)))).map fun a =>
        ⟨l, numIndexedArgs l, fs, nm, an, a.full_signature, a.name, a.anonymous⟩) := by
  simp only [match_logs_by_topic0_address_rerun, List.flatMap_cons, List.flatMap_nil,
    List.append_nil]

/-- Under unique catalog triples, re-running the address-qualified join on
the rows produced for a single log row duplicates the signature columns
into the suffixed ones and changes nothing else. -/
theorem rerun_logJoinStep {abi_df : List AbiRow}
    (h : (abi_df.map fun a => (a.hash, a.address, a.num_indexed_args)).Nodup)
    (l : LogRow) :
    match_logs_by_topic0_address_rerun (logJoinStep abi_df l) abi_df =
      (logJoinStep abi_df l).map fun r =>
        ⟨r.log, r.num_indexed_args, r.full_signature, r.name, r.anonymous,
         r.full_signature, r.name, r.anonymous⟩ := by
  have hle := length_filter_key_le_one
    (fun a : AbiRow => (a.hash, a.address, a.num_indexed_args)) abi_df h
    (l.topic0, l.address, some (numIndexedArgs l))
  rcases hF : abi_df.filter (fun a => decide ((a.hash, a.address, a.num_indexed_args) =
      (l.topic0, l.address, some (numIndexedArgs l)))) with _ | ⟨a, tl⟩
  · have hstep : logJoinStep abi_df l = [⟨l, numIndexedArgs l, none, none, none⟩] := by
      simp only [logJoinStep]
      rw [hF]
      rfl
    rw [hstep, rerun_one, hF]
    rfl
  · rw [hF] at hle
    have htl : tl = [] := by
      simp only [List.length_cons] at hle
      exact List.eq_nil_of_length_eq_zero (by omega)
    subst htl
    have hstep : logJoinStep abi_df l =
        [⟨l, numIndexedArgs l, a.full_signature, a.name, a.anonymous⟩] := by
      simp only [logJoinStep]
      rw [hF]
      rfl
    rw [hstep, rerun_one, hF]
    rfl

/-- C9, counterexample: even with unique catalog triples, re-running the
address-qualified matcher on its own output does not reproduce the first
output — the second output carries extra `_right`-suffixed catalog columns
(Polars suffixes the colliding join columns), so the materialized frames
differ. -/
theorem C9_rerun_cex :
    (([⟨1, 170, some "T", some "n", some false, some 2⟩] : List AbiRow).map
        fun a => (a.hash, a.address, a.num_indexed_args)).Nodup ∧
    (match_logs_by_topic0_address_rerun
        (match_logs_by_topic0_address [⟨1, some 7, none, none, 170⟩]
          [⟨1, 170, some "T", some "n", some false, some 2⟩])
        [⟨1, 170, some "T", some "n", some false, some 2⟩]).map
      MatchedLog2.toNamedRow ≠
      (match_logs_by_topic0_address [⟨1, some 7, none, none, 170⟩]
        [⟨1, 170, some "T", some "n", some false, some 2⟩]).map
        MatchedLog.toNamedRow := by
  decide

/-- C9 (amended): if every catalog (`hash`,`address`,`num_indexed_args`)
triple is unique, re-running address-qualified matching on already-matched
output preserves every row and every existing column value unchanged; the
only difference is the appended `_right`-suffixed duplicate catalog columns,
whose values equal the originals. -/
theorem C9_rerun_duplicates_columns (log_df : List LogRow) (abi_df : List AbiRow)
    (h : (abi_df.map fun a => (a.hash, a.address, a.num_indexed_args)).Nodup) :
    match_logs_by_topic0_address_rerun
        (match_logs_by_topic0_address log_df abi_df) abi_df =
      (match_logs_by_topic0_address log_df abi_df).map fun r =>
        ⟨r.log, r.num_indexed_args, r.full_signature, r.name, r.anonymous,
         r.full_signature, r.name, r.anonymous⟩ := by
  induction log_df with
  | nil => rfl
  | cons l ls ih =>
    have hsplit : match_logs_by_topic0_address (l :: ls) abi_df =
        logJoinStep abi_df l ++ match_logs_by_topic0_address ls abi_df := rfl
    rw [hsplit, rerun_append, List.map_append, rerun_logJoinStep h l, ih]

/-- C9, witness: the amended theorem applied at a concrete one-row log frame
and unique-triple catalog. -/
theorem C9_rerun_duplicates_columns_witness :
    (([⟨1, 170, some "T", some "n", some false, some 2⟩] : List AbiRow).map
        fun a => (a.hash, a.address, a.num_indexed_args)).Nodup ∧
    match_logs_by_topic0_address_rerun
        (match_logs_by_topic0_address [⟨1, some 7, none, none, 170⟩]
          [⟨1, 170, some "T", some "n", some false, some 2⟩])
        [⟨1, 170, some "T", some "n", some false, some 2⟩] =
      (match_logs_by_topic0_address [⟨1, some 7, none, none, 170⟩]
        [⟨1, 170, some "T", some "n", some false, some 2⟩]).map fun r =>
        ⟨r.log, r.num_indexed_args, r.full_signature, r.name, r.anonymous,
         r.full_signature, r.name, r.anonymous⟩ :=
  ⟨by decide,
   C9_rerun_duplicates_columns [⟨1, some 7, none, none, 170⟩]
     [⟨1, 170, some "T", some "n", some false, some 2⟩] (by decide)⟩
